import Mathlib

/-!
# Verification of the discogs-scraper extraction core

Shallow embedding of `rock_genre/scraper.py` and `rock_genre/helpers.py`.

Python strings are modelled as `String` / `List Char`; the Selenium document
accessor is modelled by explicit data describing what each query returns
(`none` standing for the corresponding exception).  Python string operations
used by the source (`split`, `strip`, `in`, `re.findall`, `re.search`,
`re.match`) are embedded character-by-character below.  `\d` of Python's `re`
is modelled as the ASCII digit test `Char.isDigit`, and `str.strip()` /
`str.isspace` whitespace as `Char.isWhitespace`.
-/

/-- Python `needle in hay` (contiguous substring test) on character lists. -/
def containsSub (needle : List Char) : List Char → Bool
  | [] => needle.isEmpty
  | c :: rest => needle.isPrefixOf (c :: rest) || containsSub needle rest

/-- Prepend a character to the piece currently being assembled
(the head of the accumulated piece list). -/
def consPiece (c : Char) : List (List Char) → List (List Char)
  | [] => [[c]]
  | p :: ps => (c :: p) :: ps

/-- Python `s.split(sep)` for the non-empty separator `a :: sep`: a left-to-right,
non-overlapping scan.  `fuel` only forces structural termination; any
`fuel ≥ s.length` yields the real result, and the fuel-exhausted branch is
unreachable then. -/
def pySplitGo (a : Char) (sep : List Char) : Nat → List Char → List (List Char)
  | _, [] => [[]]
  | 0, s => [s]
  | fuel + 1, c :: rest =>
    if (a :: sep).isPrefixOf (c :: rest) then
      [] :: pySplitGo a sep fuel (rest.drop sep.length)
    else
      consPiece c (pySplitGo a sep fuel rest)

/-- Python `s.split(sep)` (non-empty separator `a :: sep`). -/
def pySplit (a : Char) (sep : List Char) (s : List Char) : List (List Char) :=
  pySplitGo a sep s.length s

/-- Trailing-whitespace strip (the right half of Python `str.strip()`). -/
def stripEnd (s : List Char) : List Char :=
  (s.reverse.dropWhile Char.isWhitespace).reverse

/-- Python `s.strip()` with the default (whitespace) strip set. -/
def pyStripL (s : List Char) : List Char :=
  stripEnd (s.dropWhile Char.isWhitespace)

/-- `href.split("?")[0]` — the text before the first `?`
(scraper.py line 82 and line 204). -/
def beforeQL (s : List Char) : List Char :=
  (pySplit '?' [] s).headD []

/-- `BASE_URL` from constants.py. -/
def BASE_URL : String := "https://www.discogs.com"

/-- `BASE_URL` minus its first character, so that the separator of
`href.split(BASE_URL)` can be given in the structurally non-empty form
`'h' :: baseTail`. -/
def baseTail : List Char := "ttps://www.discogs.com".data

/-- `x.split(BASE_URL)[-1]` (scraper.py line 82). -/
def splitBaseLast (s : List Char) : List Char :=
  (pySplit 'h' baseTail s).getLastD []

/-- `href.split("?")[0].split(BASE_URL)[-1].strip()` — the normalized path of an
artist link (scraper.py line 82). -/
def normalizedPathL (href : List Char) : List Char :=
  pyStripL (splitBaseLast (beforeQL href))

def normalizedPath (href : String) : String :=
  ⟨normalizedPathL href.data⟩

/-- `f"{BASE_URL}{normalized_path}"` (scraper.py line 83). -/
def fullUrl (p : String) : String := BASE_URL ++ p

/-- `href.split("?")[0]` — the normalized album link (scraper.py line 204). -/
def albumNorm (href : String) : String := ⟨beforeQL href.data⟩

/-- `if not href or "/artist/" not in href: continue` (line 78), as the predicate
for the candidates that are kept. -/
def validArtistHref (h : String) : Bool :=
  decide (h ≠ "") && containsSub "/artist/".data h.data

/-- The candidate loop of one section (lines 74-91): normalize, dedup against the
set shared across sections, append the full URL, and break once
`len(artists) >= limit`.  Returns (seen set, collected list). -/
def sectionScan (limit : Nat) :
    List (Option String) → List String → List String → List String × List String
  | [], seen, acc => (seen, acc)
  | none :: t, seen, acc => sectionScan limit t seen acc
  | some h :: t, seen, acc =>
    if validArtistHref h then
      if normalizedPath h ∈ seen then
        if limit ≤ acc.length then (seen, acc) else sectionScan limit t seen acc
      else
        if limit ≤ (acc ++ [fullUrl (normalizedPath h)]).length then
          (normalizedPath h :: seen, acc ++ [fullUrl (normalizedPath h)])
        else
          sectionScan limit t (normalizedPath h :: seen) (acc ++ [fullUrl (normalizedPath h)])
    else sectionScan limit t seen acc

/-- The section loop (lines 63-98): break when the limit is already reached,
otherwise scan the next section with the shared seen-set. -/
def collectGo (limit : Nat) :
    List (List (Option String)) → List String → List String → List String
  | [], _, acc => acc
  | s :: ss, seen, acc =>
    if limit ≤ acc.length then acc
    else
      collectGo limit ss (sectionScan limit s seen acc).1 (sectionScan limit s seen acc).2

/-- `get_artists_by_genre(driver, genre_slug, limit)` restricted to its pure
collection behaviour over the sections' candidate links. -/
def get_artists_by_genre (limit : Nat) (sections : List (List (Option String))) :
    List String :=
  collectGo limit sections [] []

/-- First-occurrence deduplication of a list of normalized paths against a seen
set: the reference function the discovery loop is proved equal to. -/
def dedupFirst : List String → List String → List String
  | [], _ => []
  | p :: t, seen => if p ∈ seen then dedupFirst t seen else p :: dedupFirst t (p :: seen)

/-- The seen set after processing a list of normalized paths. -/
def dedupSeen : List String → List String → List String
  | [], seen => seen
  | p :: t, seen => if p ∈ seen then dedupSeen t seen else dedupSeen t (p :: seen)

/-- The normalized paths of the valid candidates, in order. -/
def normCandidates (cands : List (Option String)) : List String :=
  cands.filterMap (fun h? => match h? with
    | none => none
    | some h => if validArtistHref h then some (normalizedPath h) else none)

/-- `if href and ("/release/" in href or "/master/" in href)` (line 203). -/
def validAlbumHref (h : String) : Bool :=
  decide (h ≠ "") && (containsSub "/release/".data h.data || containsSub "/master/".data h.data)

/-- The album-link loop (lines 199-209): strip the query, dedup, append, and
break as soon as `len(album_links) >= album_limit` (checked only after an
append). -/
def albumScan (k : Nat) : List (Option String) → List String → List String → List String
  | [], _, acc => acc
  | none :: t, seen, acc => albumScan k t seen acc
  | some h :: t, seen, acc =>
    if validAlbumHref h then
      if albumNorm h ∈ seen then albumScan k t seen acc
      else
        if k ≤ (acc ++ [albumNorm h]).length then acc ++ [albumNorm h]
        else albumScan k t (albumNorm h :: seen) (acc ++ [albumNorm h])
    else albumScan k t seen acc

/-- The outcome of accessing `elem.text`: the raw text, or one of the three
exception classes the handler catches (a `None` element raises
`AttributeError`). -/
inductive TextOutcome where
  | ok (raw : String)
  | noSuchElement
  | staleElement
  | attributeError
deriving DecidableEq

/-- `safe_text(elem)`: `elem.text.strip()`, or `""` when the access raises one
of the three handled exceptions.  Total, and never `None`. -/
def safe_text : TextOutcome → String
  | .ok raw => ⟨pyStripL raw.data⟩
  | .noSuchElement => ""
  | .staleElement => ""
  | .attributeError => ""

/-- One emitted track (lines 384-390). -/
structure Track where
  track_number : Nat
  track_name : String
  duration : Option String
deriving DecidableEq

/-- One candidate tracklist row, as the outcomes of the row's queries
(lines 346-369): `titleSpan` is the `safe_text` of the
`span[class*='tracklistTitle']` element (`none` = `NoSuchElementException`);
`cellTexts` the `safe_text`s of the `.//td/span | .//td/a` elements in document
order; `durCell` the `safe_text` of the duration element (`none` =
`NoSuchElementException`, line 353). -/
structure Row where
  titleSpan : Option String
  cellTexts : List String
  durCell : Option String
deriving DecidableEq

/-- Track-name extraction (lines 356-369): prefer the title span; else the first
cell text that is truthy, differs from `dur_raw`, and has length > 5
(`ttxt != dur_raw` is `True` when `dur_raw` is `None`). -/
def rowName (r : Row) : Option String :=
  match r.titleSpan with
  | some t => some t
  | none =>
      r.cellTexts.find? (fun t =>
        decide (t ≠ "") &&
          (match r.durCell with
           | none => true
           | some d => decide (t ≠ d)) &&
          decide (5 < t.length))

/-- `re.match(r"^\d+$", name)` truthiness: a non-empty all-digit string, or the
same followed by one final `'\n'` (Python's `$` also matches just before a
trailing newline).  `\d` is modelled as ASCII `Char.isDigit`; the empty string
never matches (both branches then demand a non-empty digit block). -/
def reMatchDigits (n : String) : Bool :=
  if n.data.getLast? = some '\n' then
    decide (n.data.dropLast ≠ []) && n.data.dropLast.all Char.isDigit
  else
    decide (n.data ≠ []) && n.data.all Char.isDigit

/-- The integrity filter (lines 372-380):
`not name or re.match(r"^\d+$", name) or (album_name_raw and
album_name_raw in name and len(name) < len(album_name_raw) + 10)`. -/
def discardCode (albumNameRaw : Option String) : Option String → Bool
  | none => true
  | some n =>
      decide (n = "") || reMatchDigits n ||
        (match albumNameRaw with
         | none => false
         | some a =>
             decide (a ≠ "") && containsSub a.data n.data &&
               decide (n.length < a.length + 10))

/-- The loop body for one candidate row (lines 346-391): a discarded row leaves
the accumulated (tracks, tn) pair unchanged; otherwise the track is appended
and the counter advances. -/
def trackStep (albumNameRaw : Option String) (acc : List Track × Nat) (r : Row) :
    List Track × Nat :=
  match rowName r with
  | none => acc
  | some n =>
      if discardCode albumNameRaw (some n) then acc
      else
        (acc.1 ++ [{ track_number := acc.2, track_name := n, duration := r.durCell }],
          acc.2 + 1)

/-- The whole row loop (lines 344-391), started with `tn = 1`. -/
def trackLoop (albumNameRaw : Option String) (rows : List Row) : List Track × Nat :=
  rows.foldl (trackStep albumNameRaw) ([], 1)

/-- `sorted(tracks, key=lambda t: t.get("track_number", 9999))` (line 398):
Python's stable ascending sort by track number. -/
def sortTracks (ts : List Track) : List Track :=
  ts.mergeSort (fun a b => decide (a.track_number ≤ b.track_number))

/-- The final track list (lines 332-398); a raised tracklist `try` block
(lines 393-395) yields `[]`. -/
def tracksOf (albumNameRaw : Option String) : Option (List Row) → List Track
  | none => []
  | some rows => sortTracks (trackLoop albumNameRaw rows).1

/-! ## Release-year extraction (scraper.py lines 281-295) -/

def isWordChar (c : Char) : Bool := c.isAlphanum || c = '_'

def boundaryBefore : Option Char → Bool
  | none => true
  | some p => !isWordChar p

def boundaryAfter : List Char → Bool
  | [] => true
  | c :: _ => !isWordChar c

/-- Python `re.findall(r"\b(19|20)\d{2}\b", html)`: for each non-overlapping
match found left to right, `findall` returns the text of the single capture
group `(19|20)` — two characters, not the whole 4-digit match. -/
def findallYearGroups : Option Char → List Char → List (List Char)
  | _, [] => []
  | _, [_] => []
  | _, [_, _] => []
  | _, [_, _, _] => []
  | prev, c0 :: c1 :: c2 :: c3 :: rest =>
      if boundaryBefore prev &&
          ((decide (c0 = '1') && decide (c1 = '9')) ||
            (decide (c0 = '2') && decide (c1 = '0'))) &&
          c2.isDigit && c3.isDigit && boundaryAfter rest then
        [c0, c1] :: findallYearGroups (some c3) rest
      else
        findallYearGroups (some c0) (c1 :: c2 :: c3 :: rest)

/-- The fallback strategy (lines 292-295): `years[0]` when `years` is
non-empty. -/
def yearFallback (pageHtml : String) : Option String :=
  match findallYearGroups none pageHtml.data with
  | [] => none
  | g :: _ => some ⟨g⟩

/-- `re.search(r"year=(\d{4})", href)` (line 289): the first position where
`"year="` is followed by four ASCII digits; the value is the capture group. -/
def searchYearEq : List Char → Option (List Char)
  | [] => none
  | c :: rest =>
      if "year=".data.isPrefixOf (c :: rest) then
        match (c :: rest).drop 5 with
        | d0 :: d1 :: d2 :: d3 :: _ =>
            if d0.isDigit && d1.isDigit && d2.isDigit && d3.isDigit then
              some [d0, d1, d2, d3]
            else searchYearEq rest
        | _ => searchYearEq rest
      else searchYearEq rest

/-- What the Year-cell query returns (lines 283-290): the element's `href`
attribute (`none` = null, which makes `re.search(…, None)` raise `TypeError`,
caught by the same `except`) and its `safe_text`. -/
structure YearElem where
  href : Option String
  text : String
deriving DecidableEq

/-- The rendered album document, as the outcomes of the queries
`get_album_data` makes. -/
structure AlbumPage where
  /-- `driver.get(album_url)` succeeded (lines 254-257). -/
  navOk : Bool
  /-- the `h1` presence wait succeeded (lines 262-267); tolerated either way. -/
  h1Present : Bool
  /-- `driver.page_source` (line 270). -/
  pageHtml : String
  /-- `safe_text` of the `h1` if `find_elements` found one (lines 274-278). -/
  h1 : Option String
  /-- the Year-cell query (lines 283-290); `none` = `find_element` raised. -/
  yearCell : Option YearElem
  /-- primary label strategy (lines 299-301); `none` = raised. -/
  labelPrimary : Option String
  /-- fallback label strategy (lines 303-312); `none` = raised. -/
  labelFallback : Option (List String)
  /-- style anchors' `safe_text`s (lines 315-330); `none` = raised. -/
  styleTexts : Option (List String)
  /-- candidate tracklist rows (line 344); `none` = the tracklist `try` raised. -/
  rows : Option (List Row)
deriving DecidableEq

/-- Release-year extraction (lines 282-295): primary strategy, falling back to
the page-source regex scan when the primary raises. -/
def releaseYearOf (p : AlbumPage) : Option String :=
  match p.yearCell with
  | none => yearFallback p.pageHtml
  | some e =>
      match e.href with
      | none => yearFallback p.pageHtml
      | some h =>
          match searchYearEq h.data with
          | some y => some ⟨y⟩
          | none => some e.text

/-- Label extraction (lines 298-312). -/
def labelOf (p : AlbumPage) : Option String :=
  match p.labelPrimary with
  | some t => some t
  | none =>
      match p.labelFallback with
      | none => none
      | some [] => none
      | some (t :: _) => some t

/-- The style loop (lines 323-327): keep texts with `2 < len(txt) < 30`, no
duplicates, in order. -/
def stylesLoop : List String → List String → List String
  | [], acc => acc
  | t :: ts, acc =>
      if (decide (2 < t.length) && decide (t.length < 30)) && decide (t ∉ acc) then
        stylesLoop ts (acc ++ [t])
      else stylesLoop ts acc

def stylesOf (p : AlbumPage) : List String :=
  match p.styleTexts with
  | none => []
  | some ts => stylesLoop ts []

/-- The assembled album record (lines 401-409); `uid` models `str(uuid.uuid4())`. -/
structure AlbumObj where
  album_id : String
  album_name : Option String
  release_year : Option String
  label : Option String
  styles : List String
  tracks : List Track
  source_url : String
deriving DecidableEq

def albumRecordOf (uid : String) (p : AlbumPage) (albumUrl : String) : AlbumObj :=
  { album_id := uid
    album_name := p.h1
    release_year := releaseYearOf p
    label := labelOf p
    styles := stylesOf p
    tracks := tracksOf p.h1 p.rows
    source_url := albumUrl }

/-- `get_album_data(driver, album_url)`: `None` exactly on navigation failure,
otherwise the composed record. -/
def get_album_data (uid : String) (p : AlbumPage) (albumUrl : String) : Option AlbumObj :=
  if p.navOk then some (albumRecordOf uid p albumUrl) else none

/-- CPython's `list(set(members))` (line 168) iterates the set in an
unspecified order; modelled as first-occurrence dedup — the only aspect any
claim relies on is the dedup itself. -/
def dedupStr : List String → List String → List String
  | [], _ => []
  | t :: ts, seen => if t ∈ seen then dedupStr ts seen else t :: dedupStr ts (t :: seen)

/-- The rendered artist document, as the outcomes of the queries
`get_artist_data` makes. -/
structure ArtistPage where
  /-- `driver.get(artist_url)` succeeded (lines 132-135). -/
  navOk : Bool
  /-- the `h1` presence wait succeeded (lines 140-144); aborts the artist if not. -/
  h1Present : Bool
  /-- `safe_text` of the `h1` (lines 149-152); `none` = `find_element` raised. -/
  h1 : Option String
  /-- `safe_text`s of the member links (lines 155-172); `none` = raised. -/
  memberTexts : Option (List String)
  /-- `href`s of the website links (lines 175-190); `none` = raised. -/
  websiteHrefs : Option (List (Option String))
  /-- `href`s of the album candidate links (lines 193-212); `none` = raised. -/
  albumHrefs : Option (List (Option String))
  /-- the outcome of `get_album_data` for each collected link (lines 215-222). -/
  albumFetch : String → Option AlbumObj

/-- Members extraction (lines 154-172): keep truthy `safe_text`s, then
`list(set(...))`. -/
def membersOf (p : ArtistPage) : List String :=
  match p.memberTexts with
  | none => []
  | some ts => dedupStr (ts.filter (fun t => decide (t ≠ ""))) []

/-- The website loop (lines 182-187): `if href and href not in websites`. -/
def websitesLoop : List (Option String) → List String → List String
  | [], acc => acc
  | none :: hs, acc => websitesLoop hs acc
  | some h :: hs, acc =>
      if decide (h ≠ "") && decide (h ∉ acc) then websitesLoop hs (acc ++ [h])
      else websitesLoop hs acc

def websitesOf (p : ArtistPage) : List String :=
  match p.websiteHrefs with
  | none => []
  | some hs => websitesLoop hs []

/-- The collected album links (lines 192-212); a raised collection `try` yields
`[]`. -/
def artistAlbumLinks (p : ArtistPage) (albumLimit : Nat) : List String :=
  match p.albumHrefs with
  | none => []
  | some cands => albumScan albumLimit cands [] []

/-- The album loop (lines 215-222): fetch each collected link, keep the
successful records. -/
def albumsOf (p : ArtistPage) (albumLimit : Nat) : List AlbumObj :=
  (artistAlbumLinks p albumLimit).filterMap p.albumFetch

/-- The assembled artist record (lines 224-232); `uid` models `str(uuid.uuid4())`. -/
structure ArtistObj where
  artist_id : String
  genre : String
  artist_name : Option String
  members : List String
  websites : List String
  albums : List AlbumObj
  source_url : String

def artistRecordOf (uid : String) (p : ArtistPage) (genre artistUrl : String)
    (albumLimit : Nat) : ArtistObj :=
  { artist_id := uid
    genre := genre
    artist_name := p.h1
    members := membersOf p
    websites := websitesOf p
    albums := albumsOf p albumLimit
    source_url := artistUrl }

/-- `get_artist_data(driver, artist_url, genre, album_limit)`: `None` exactly
when navigation fails (lines 132-135) or the `h1` wait times out
(lines 140-144); otherwise the composed record. -/
def get_artist_data (uid : String) (p : ArtistPage) (genre artistUrl : String)
    (albumLimit : Nat) : Option ArtistObj :=
  if p.navOk then
    if p.h1Present then some (artistRecordOf uid p genre artistUrl albumLimit)
    else none
  else none

/-- Extracted names are `safe_text` results, hence stripped: in particular they
cannot end in a newline.  This is the hypothesis under which the code's
`re.match(r"^\d+$", …)` coincides with "purely numeric". -/
def strippedName (r : Row) : Bool :=
  match rowName r with
  | none => true
  | some n => decide (n.data.getLast? ≠ some '\n')

/-- The discard condition in the words of the specification (claim C2), with the
length bound amended to the code's strict form: discard when the name is
missing (or empty), purely numeric, or contains a present non-empty album name
while being fewer than 10 characters longer than it.  Stated separately from
`discardCode` so that the two can be compared. -/
def discardSpec (albumNameRaw : Option String) : Option String → Bool
  | none => true
  | some n =>
      decide (n = "") || (decide (n ≠ "") && n.data.all Char.isDigit) ||
        (match albumNameRaw with
         | none => false
         | some a =>
             decide (a ≠ "") && containsSub a.data n.data &&
               decide (n.length < a.length + 10))

/-- The album page of C1's failing input: the Year cell is absent (the primary
strategy raises) and the raw document snapshot contains the 4-digit token
`1999`. -/
def c1Page : AlbumPage :=
  { navOk := true
    h1Present := true
    pageHtml := "Album released 1999"
    h1 := some "X"
    yearCell := none
    labelPrimary := none
    labelFallback := none
    styleTexts := none
    rows := some [] }

/-- The artist page of C3's counterexample and witness: one qualifying album
link, with every fetch succeeding. -/
def c3Page : ArtistPage :=
  { navOk := true
    h1Present := true
    h1 := none
    memberTexts := none
    websiteHrefs := none
    albumHrefs := some [some "https://www.discogs.com/release/1"]
    albumFetch := fun s =>
      some { album_id := "a"
             album_name := none
             release_year := none
             label := none
             styles := []
             tracks := []
             source_url := s } }

/-- The artist page of C7's witness: all per-field queries fail, yet a record
is still composed. -/
def c7Page : ArtistPage :=
  { navOk := true
    h1Present := true
    h1 := none
    memberTexts := none
    websiteHrefs := none
    albumHrefs := none
    albumFetch := fun _ => none }

/-- The album page of C8's witness: the heading wait timed out and the
tracklist extraction raised. -/
def c8Page : AlbumPage :=
  { navOk := true
    h1Present := false
    pageHtml := ""
    h1 := none
    yearCell := none
    labelPrimary := none
    labelFallback := none
    styleTexts := none
    rows := none }

/-! ## Properties, claims, witnesses and counterexamples -/

theorem prefixOf_iff {l₁ l₂ : List Char} : l₁.isPrefixOf l₂ = true ↔ l₁ <+: l₂ :=
  List.isPrefixOf_iff_prefix

theorem reversePrefix_iff {l₁ l₂ : List Char} : l₁.reverse <+: l₂.reverse ↔ l₁ <:+ l₂ :=
  List.reverse_prefix

theorem infix_of_isPre {l₁ l₂ : List Char} (h : l₁ <+: l₂) : l₁ <:+: l₂ :=
  List.IsPrefix.isInfix h

theorem infix_of_isSuf {l₁ l₂ : List Char} (h : l₁ <:+ l₂) : l₁ <:+: l₂ :=
  List.IsSuffix.isInfix h

theorem infix_trans {l₁ l₂ l₃ : List Char} (h₁ : l₁ <:+: l₂) (h₂ : l₂ <:+: l₃) :
    l₁ <:+: l₃ :=
  List.IsInfix.trans h₁ h₂

theorem containsSub_iff (needle hay : List Char) :
    containsSub needle hay = true ↔ needle <:+: hay := by
  induction hay with
  | nil =>
      simp [containsSub, List.infix_nil, List.isEmpty_iff]
  | cons c rest ih =>
      simp only [containsSub, Bool.or_eq_true, ih, List.infix_cons_iff, prefixOf_iff]

theorem pySplitGo_ne_nil (a : Char) (sep : List Char) (fuel : Nat) (s : List Char) :
    pySplitGo a sep fuel s ≠ [] := by
  match fuel, s with
  | fuel, [] => simp [pySplitGo]
  | 0, c :: rest => simp [pySplitGo]
  | fuel + 1, c :: rest =>
    rw [pySplitGo]
    split
    · simp
    · cases h : pySplitGo a sep fuel rest <;> simp [consPiece]

theorem pySplitGo_singleton (a : Char) (sep : List Char) :
    ∀ (fuel : Nat) (s : List Char) (p : List Char), s.length ≤ fuel →
      pySplitGo a sep fuel s = [p] → p = s := by
  intro fuel
  induction fuel with
  | zero =>
      intro s p hs h
      have : s = [] := List.length_eq_zero.mp (Nat.le_antisymm hs (Nat.zero_le _))
      subst this
      simpa [pySplitGo] using h.symm
  | succ fuel ih =>
      intro s p hs h
      match s with
      | [] => simpa [pySplitGo] using h.symm
      | c :: rest =>
        rw [pySplitGo] at h
        split at h
        · exact absurd (List.cons_eq_cons.mp h).2 (pySplitGo_ne_nil a sep fuel _)
        · cases hr : pySplitGo a sep fuel rest with
          | nil => exact absurd hr (pySplitGo_ne_nil a sep fuel rest)
          | cons q qs =>
              rw [hr] at h
              simp only [consPiece, List.cons.injEq] at h
              obtain ⟨hp, hqs⟩ := h
              subst hqs
              have hq : q = rest := by
                have hlen : rest.length ≤ fuel := by
                  simpa [Nat.succ_le_succ_iff] using hs
                exact ih rest q hlen hr
              simp [← hp, hq]

theorem getLastD_of_ne_nil {α : Type} {l : List α} (h : l ≠ []) (d d' : α) :
    l.getLastD d = l.getLastD d' := by
  cases l with
  | nil => exact absurd rfl h
  | cons x xs => rw [List.getLastD_cons, List.getLastD_cons]

theorem pySplitGo_last_suffix (a : Char) (sep : List Char) :
    ∀ (fuel : Nat) (s : List Char), s.length ≤ fuel →
      (pySplitGo a sep fuel s).getLastD [] <:+ s := by
  intro fuel
  induction fuel with
  | zero =>
      intro s hs
      have : s = [] := List.length_eq_zero.mp (Nat.le_antisymm hs (Nat.zero_le _))
      subst this
      simp [pySplitGo]
  | succ fuel ih =>
      intro s hs
      match s with
      | [] => simp [pySplitGo]
      | c :: rest =>
        have hlen : rest.length ≤ fuel := by
          simpa [Nat.succ_le_succ_iff] using hs
        rw [pySplitGo]
        split
        · rw [List.getLastD_cons]
          have hd : (rest.drop sep.length).length ≤ fuel :=
            Nat.le_trans (by rw [List.length_drop]; omega) hlen
          have h₁ : (pySplitGo a sep fuel (rest.drop sep.length)).getLastD [] <:+
              rest.drop sep.length := ih _ hd
          exact (h₁.trans (List.drop_suffix _ _)).trans (List.suffix_cons c rest)
        · cases hr : pySplitGo a sep fuel rest with
          | nil => exact absurd hr (pySplitGo_ne_nil a sep fuel rest)
          | cons q qs =>
              cases qs with
              | nil =>
                  have hq : q = rest := pySplitGo_singleton a sep fuel rest q hlen hr
                  simp only [consPiece, List.getLastD_cons, List.getLastD_nil]
                  rw [hq]
              | cons q' qs' =>
                  have h₁ : (pySplitGo a sep fuel rest).getLastD [] <:+ rest := ih rest hlen
                  rw [hr, List.getLastD_cons, List.getLastD_cons] at h₁
                  simp only [consPiece, List.getLastD_cons]
                  exact h₁.trans (List.suffix_cons c rest)

theorem pySplitGo_last_sepFree (a : Char) (sep : List Char) :
    ∀ (fuel : Nat) (s : List Char), s.length ≤ fuel →
      ¬ (a :: sep) <:+: (pySplitGo a sep fuel s).getLastD [] := by
  intro fuel
  induction fuel with
  | zero =>
      intro s hs
      have : s = [] := List.length_eq_zero.mp (Nat.le_antisymm hs (Nat.zero_le _))
      subst this
      simp [pySplitGo, List.infix_nil]
  | succ fuel ih =>
      intro s hs
      match s with
      | [] => simp [pySplitGo, List.infix_nil]
      | c :: rest =>
        have hlen : rest.length ≤ fuel := by
          simpa [Nat.succ_le_succ_iff] using hs
        rw [pySplitGo]
        split
        · rw [List.getLastD_cons]
          exact ih _ (Nat.le_trans (by rw [List.length_drop]; omega) hlen)
        · rename_i hpre
          cases hr : pySplitGo a sep fuel rest with
          | nil => exact absurd hr (pySplitGo_ne_nil a sep fuel rest)
          | cons q qs =>
              cases qs with
              | nil =>
                  have hq : q = rest := pySplitGo_singleton a sep fuel rest q hlen hr
                  simp only [consPiece, List.getLastD_cons, List.getLastD_nil]
                  intro hinf
                  rcases List.infix_cons_iff.mp hinf with hp | hi
                  · rw [hq] at hp
                    exact hpre (prefixOf_iff.mpr hp)
                  · have h₁ := ih rest hlen
                    rw [hr] at h₁
                    simp only [List.getLastD_cons, List.getLastD_nil] at h₁
                    exact h₁ hi
              | cons q' qs' =>
                  have h₁ := ih rest hlen
                  rw [hr, List.getLastD_cons, List.getLastD_cons] at h₁
                  simp only [consPiece, List.getLastD_cons]
                  exact h₁

theorem pySplitGo_of_sepFree (a : Char) (sep : List Char) :
    ∀ (fuel : Nat) (s : List Char), s.length ≤ fuel →
      ¬ (a :: sep) <:+: s → pySplitGo a sep fuel s = [s] := by
  intro fuel
  induction fuel with
  | zero =>
      intro s hs _
      have : s = [] := List.length_eq_zero.mp (Nat.le_antisymm hs (Nat.zero_le _))
      subst this
      simp [pySplitGo]
  | succ fuel ih =>
      intro s hs hinf
      match s with
      | [] => simp [pySplitGo]
      | c :: rest =>
        have hlen : rest.length ≤ fuel := by
          simpa [Nat.succ_le_succ_iff] using hs
        rw [pySplitGo]
        split
        · rename_i hpre
          exact absurd (infix_of_isPre (prefixOf_iff.mp hpre)) hinf
        · have : pySplitGo a sep fuel rest = [rest] :=
            ih rest hlen (fun hi => hinf (List.infix_cons hi))
          rw [this]
          simp [consPiece]

theorem dropWhile_dropWhile (p : Char → Bool) (l : List Char) :
    List.dropWhile p (List.dropWhile p l) = List.dropWhile p l := by
  induction l with
  | nil => simp
  | cons c t ih =>
      rw [List.dropWhile_cons]
      split
      · exact ih
      · rename_i hc
        rw [List.dropWhile_cons, if_neg hc]

theorem stripEnd_idem (s : List Char) : stripEnd (stripEnd s) = stripEnd s := by
  unfold stripEnd
  rw [List.reverse_reverse, dropWhile_dropWhile]

theorem stripEnd_isPre (s : List Char) : stripEnd s <+: s := by
  have h := reversePrefix_iff.mpr (List.dropWhile_suffix (l := s.reverse) Char.isWhitespace)
  rw [List.reverse_reverse] at h
  exact h

theorem pyStripL_isInf (s : List Char) : pyStripL s <:+: s :=
  infix_trans (infix_of_isPre (stripEnd_isPre _))
    (infix_of_isSuf (List.dropWhile_suffix Char.isWhitespace))

theorem dropWhile_of_dropWhile_all (u : List Char)
    (hu : List.dropWhile Char.isWhitespace u = u) :
    List.dropWhile Char.isWhitespace (stripEnd u) = stripEnd u := by
  cases hse : stripEnd u with
  | nil => simp
  | cons c t =>
      have hpre : (c :: t) <+: u := by
        rw [← hse]; exact stripEnd_isPre u
      obtain ⟨r, hr⟩ := hpre
      have hc : Char.isWhitespace c = false := by
        by_contra hcc
        have hc' : Char.isWhitespace c = true := by
          cases h : Char.isWhitespace c
          · exact absurd h hcc
          · rfl
        rw [← hr] at hu
        have : List.dropWhile Char.isWhitespace (c :: (t ++ r)) =
            List.dropWhile Char.isWhitespace (t ++ r) := by
          rw [List.dropWhile_cons, if_pos hc']
        rw [List.cons_append] at hu
        rw [this] at hu
        have hlen := congrArg List.length hu
        have hle := List.Sublist.length_le
          (List.IsSuffix.sublist (List.dropWhile_suffix (l := t ++ r) Char.isWhitespace))
        rw [List.length_cons] at hlen
        omega
      rw [List.dropWhile_cons, if_neg (by simp [hc])]

theorem pyStripL_idem (s : List Char) : pyStripL (pyStripL s) = pyStripL s := by
  unfold pyStripL
  rw [dropWhile_of_dropWhile_all _ (dropWhile_dropWhile Char.isWhitespace s), stripEnd_idem]

theorem pySplitGo_headD_q :
    ∀ (fuel : Nat) (s : List Char), s.length ≤ fuel →
      (pySplitGo '?' [] fuel s).headD [] = s.takeWhile (fun c => decide (c ≠ '?')) := by
  intro fuel
  induction fuel with
  | zero =>
      intro s hs
      have : s = [] := List.length_eq_zero.mp (Nat.le_antisymm hs (Nat.zero_le _))
      subst this
      simp [pySplitGo]
  | succ fuel ih =>
      intro s hs
      match s with
      | [] => simp [pySplitGo]
      | c :: rest =>
        have hlen : rest.length ≤ fuel := by
          simpa [Nat.succ_le_succ_iff] using hs
        rw [pySplitGo]
        by_cases hc : c = '?'
        · subst hc
          rw [if_pos (by simp [List.isPrefixOf])]
          simp [List.takeWhile_cons]
        · rw [if_neg (by simp [List.isPrefixOf, Ne.symm hc])]
          cases hgo : pySplitGo '?' [] fuel rest with
          | nil => exact absurd hgo (pySplitGo_ne_nil '?' [] fuel rest)
          | cons q qs =>
              have hq := ih rest hlen
              rw [hgo] at hq
              simp only [List.headD_cons] at hq
              simp only [consPiece, List.headD_cons]
              rw [List.takeWhile_cons, if_pos (by simp [hc]), hq]

theorem beforeQL_eq_takeWhile (s : List Char) :
    beforeQL s = s.takeWhile (fun c => decide (c ≠ '?')) :=
  pySplitGo_headD_q s.length s (Nat.le_refl _)

theorem noQ_of_mem_beforeQL {c : Char} {s : List Char} (h : c ∈ beforeQL s) : c ≠ '?' := by
  rw [beforeQL_eq_takeWhile] at h
  simpa using List.mem_takeWhile_imp h

theorem beforeQL_of_noQ {s : List Char} (h : '?' ∉ s) : beforeQL s = s := by
  rw [beforeQL_eq_takeWhile]
  rw [List.takeWhile_eq_self_iff]
  intro x hx
  simp only [decide_eq_true_eq]
  intro he
  exact h (he ▸ hx)

theorem beforeQL_idem (s : List Char) : beforeQL (beforeQL s) = beforeQL s :=
  beforeQL_of_noQ (fun hc => noQ_of_mem_beforeQL hc rfl)

theorem BASE_URL_data : BASE_URL.data = 'h' :: baseTail := rfl

theorem splitBaseLast_isSuf (s : List Char) : splitBaseLast s <:+ s :=
  pySplitGo_last_suffix 'h' baseTail s.length s (Nat.le_refl _)

theorem base_sepFree_normalizedPathL (h : List Char) :
    ¬ ('h' :: baseTail) <:+: normalizedPathL h :=
  fun hi =>
    pySplitGo_last_sepFree 'h' baseTail (beforeQL h).length (beforeQL h) (Nat.le_refl _)
      (infix_trans hi (pyStripL_isInf _))

theorem noQ_normalizedPathL (h : List Char) : '?' ∉ normalizedPathL h := by
  intro hc
  have h1 : '?' ∈ splitBaseLast (beforeQL h) :=
    List.Sublist.mem hc (List.IsInfix.sublist (pyStripL_isInf _))
  have h2 : '?' ∈ beforeQL h :=
    List.Sublist.mem h1 (List.IsSuffix.sublist (splitBaseLast_isSuf _))
  exact noQ_of_mem_beforeQL h2 rfl

theorem normalizedPathL_idem (h : List Char) :
    normalizedPathL (normalizedPathL h) = normalizedPathL h := by
  have h1 : beforeQL (normalizedPathL h) = normalizedPathL h :=
    beforeQL_of_noQ (noQ_normalizedPathL h)
  have h2 : splitBaseLast (normalizedPathL h) = normalizedPathL h := by
    unfold splitBaseLast pySplit
    rw [pySplitGo_of_sepFree 'h' baseTail _ _ (Nat.le_refl _) (base_sepFree_normalizedPathL h)]
    simp [List.getLastD_cons]
  show pyStripL (splitBaseLast (beforeQL (normalizedPathL h))) = normalizedPathL h
  rw [h1, h2]
  show pyStripL (pyStripL (splitBaseLast (beforeQL h))) = normalizedPathL h
  rw [pyStripL_idem]
  rfl

theorem takeWhile_append_stop (p : Char → Bool) (x q : List Char) (b : Char)
    (hx : ∀ c ∈ x, p c = true) (hb : p b = false) :
    List.takeWhile p (x ++ b :: q) = x := by
  induction x with
  | nil => simp [List.takeWhile_cons, hb]
  | cons c t ih =>
      rw [List.cons_append, List.takeWhile_cons, if_pos (hx c (by simp))]
      rw [ih (fun d hd => hx d (by simp [hd]))]

theorem beforeQL_append_query (x q : List Char) (hx : '?' ∉ x) :
    beforeQL (x ++ '?' :: q) = x := by
  rw [beforeQL_eq_takeWhile]
  refine takeWhile_append_stop _ x q '?' ?_ (by simp)
  intro c hc
  simp only [decide_eq_true_eq]
  intro he
  exact hx (he ▸ hc)

theorem normalizedPathL_query (x q : List Char) (hx : '?' ∉ x) :
    normalizedPathL (x ++ '?' :: q) = normalizedPathL x := by
  show pyStripL (splitBaseLast (beforeQL (x ++ '?' :: q))) =
    pyStripL (splitBaseLast (beforeQL x))
  rw [beforeQL_of_noQ hx, beforeQL_append_query x q hx]

theorem dedupFirst_append (l1 l2 : List String) :
    ∀ seen, dedupFirst (l1 ++ l2) seen =
      dedupFirst l1 seen ++ dedupFirst l2 (dedupSeen l1 seen) := by
  induction l1 with
  | nil => intro seen; simp [dedupFirst, dedupSeen]
  | cons p t ih =>
      intro seen
      by_cases hp : p ∈ seen
      · simp only [List.cons_append, dedupFirst, dedupSeen, if_pos hp]
        exact ih seen
      · simp only [List.cons_append, dedupFirst, dedupSeen, if_neg hp]
        exact congrArg (List.cons p) (ih (p :: seen))

theorem sectionScan_spec (limit : Nat) :
    ∀ (cands : List (Option String)) (seen acc : List String), acc.length < limit →
      (sectionScan limit cands seen acc).2 =
        acc ++ ((dedupFirst (normCandidates cands) seen).take (limit - acc.length)).map fullUrl
      ∧ ((sectionScan limit cands seen acc).2.length < limit →
          (sectionScan limit cands seen acc).1 = dedupSeen (normCandidates cands) seen) := by
  intro cands
  induction cands with
  | nil =>
      intro seen acc h
      simp [sectionScan, normCandidates, dedupFirst, dedupSeen]
  | cons h? t ih =>
      intro seen acc hacc
      match h? with
      | none =>
          simpa only [sectionScan, normCandidates, List.filterMap_cons] using ih seen acc hacc
      | some h =>
        by_cases hv : validArtistHref h
        · by_cases hmem : normalizedPath h ∈ seen
          · have hnc : normCandidates (some h :: t) = normalizedPath h :: normCandidates t := by
              simp [normCandidates, List.filterMap_cons, hv]
            simp only [sectionScan, if_pos hv, if_pos hmem, if_neg (Nat.not_le.mpr hacc), hnc,
              dedupFirst, dedupSeen, if_pos hmem]
            exact ih seen acc hacc
          · have hnc : normCandidates (some h :: t) = normalizedPath h :: normCandidates t := by
              simp [normCandidates, List.filterMap_cons, hv]
            have hlen1 : (acc ++ [fullUrl (normalizedPath h)]).length = acc.length + 1 := by
              simp
            by_cases hlim : limit ≤ (acc ++ [fullUrl (normalizedPath h)]).length
            · -- the appended element reaches the cap: break
              have hlimEq : limit = acc.length + 1 := by omega
              have htake : limit - acc.length = 1 := by omega
              simp only [sectionScan, if_pos hv, if_neg hmem, if_pos hlim, hnc, dedupFirst,
                if_neg hmem, htake, List.take_succ_cons, List.take_nil, List.map_cons,
                List.map_nil]
              constructor
              · rfl
              · intro hcontra
                rw [hlen1] at hcontra
                omega
            · -- append and continue
              have hacc' : (acc ++ [fullUrl (normalizedPath h)]).length < limit := by omega
              obtain ⟨he, hs⟩ := ih (normalizedPath h :: seen) (acc ++ [fullUrl (normalizedPath h)]) hacc'
              simp only [sectionScan, if_pos hv, if_neg hmem, if_neg hlim, hnc, dedupFirst,
                if_neg hmem, dedupSeen, if_neg hmem]
              constructor
              · rw [he]
                have hm : limit - acc.length = (limit - (acc ++ [fullUrl (normalizedPath h)]).length) + 1 := by
                  rw [hlen1]; omega
                rw [hm, List.take_succ_cons, List.map_cons]
                simp
              · exact hs
        · simpa only [sectionScan, if_neg hv, normCandidates, List.filterMap_cons, if_neg hv]
            using ih seen acc hacc

theorem normCandidates_append (a b : List (Option String)) :
    normCandidates (a ++ b) = normCandidates a ++ normCandidates b :=
  List.filterMap_append a b _

theorem collectGo_spec (limit : Nat) :
    ∀ (ss : List (List (Option String))) (seen acc : List String), acc.length ≤ limit →
      collectGo limit ss seen acc =
        acc ++ ((dedupFirst (normCandidates ss.flatten) seen).take (limit - acc.length)).map
          fullUrl := by
  intro ss
  induction ss with
  | nil =>
      intro seen acc h
      simp [collectGo, normCandidates, dedupFirst]
  | cons s ss ih =>
      intro seen acc hacc
      have hflat : normCandidates ((s :: ss).flatten) =
          normCandidates s ++ normCandidates ss.flatten := by
        rw [List.flatten_cons, normCandidates_append]
      by_cases hlim : limit ≤ acc.length
      · have h0 : limit - acc.length = 0 := by omega
        simp [collectGo, if_pos hlim, h0]
      · have hlt : acc.length < limit := by omega
        obtain ⟨he, hseen⟩ := sectionScan_spec limit s seen acc hlt
        simp only [collectGo, if_neg hlim]
        have hlenacc' : (sectionScan limit s seen acc).2.length =
            acc.length + min (limit - acc.length) (dedupFirst (normCandidates s) seen).length := by
          rw [he]
          simp [List.length_take]
        by_cases hfull : (sectionScan limit s seen acc).2.length < limit
        · have hDlt : (dedupFirst (normCandidates s) seen).length < limit - acc.length := by
            omega
          have htake1 : (dedupFirst (normCandidates s) seen).take (limit - acc.length) =
              dedupFirst (normCandidates s) seen :=
            List.take_of_length_le (by omega)
          rw [ih _ _ (Nat.le_of_lt hfull), hseen hfull, he, htake1, hflat, dedupFirst_append,
            List.take_append_eq_append_take, htake1]
          have harith : limit -
              (acc ++ (dedupFirst (normCandidates s) seen).map fullUrl).length =
              limit - acc.length - (dedupFirst (normCandidates s) seen).length := by
            simp only [List.length_append, List.length_map]
            omega
          rw [harith, List.map_append, List.append_assoc]
        · have hsat : (sectionScan limit s seen acc).2.length = limit := by omega
          rw [ih _ _ (by omega)]
          have h0 : limit - (sectionScan limit s seen acc).2.length = 0 := by omega
          rw [h0]
          simp only [List.take_zero, List.map_nil, List.append_nil]
          rw [he, hflat, dedupFirst_append, List.take_append_eq_append_take]
          have hm : limit - acc.length - (dedupFirst (normCandidates s) seen).length = 0 := by
            omega
          rw [hm]
          simp only [List.take_zero, List.append_nil]

theorem get_artists_spec (limit : Nat) (sections : List (List (Option String))) :
    get_artists_by_genre limit sections =
      ((dedupFirst (normCandidates sections.flatten) []).take limit).map fullUrl := by
  have h := collectGo_spec limit sections [] [] (by simp)
  simpa [get_artists_by_genre] using h

theorem dedupFirst_nodup : ∀ (l seen : List String),
    (dedupFirst l seen).Nodup ∧ ∀ x ∈ dedupFirst l seen, x ∉ seen := by
  intro l
  induction l with
  | nil => intro seen; simp [dedupFirst]
  | cons p t ih =>
      intro seen
      by_cases hp : p ∈ seen
      · simp only [dedupFirst, if_pos hp]
        exact ih seen
      · simp only [dedupFirst, if_neg hp]
        obtain ⟨hnd, hni⟩ := ih (p :: seen)
        refine ⟨List.nodup_cons.mpr ⟨fun hin => (hni p hin) (by simp), hnd⟩, ?_⟩
        intro x hx
        rcases List.mem_cons.mp hx with rfl | hx'
        · exact hp
        · intro hxs
          exact hni x hx' (by simp [hxs])

theorem mem_of_mem_dedupFirst : ∀ (l seen : List String) (x : String),
    x ∈ dedupFirst l seen → x ∈ l := by
  intro l
  induction l with
  | nil => intro seen x h; simp [dedupFirst] at h
  | cons p t ih =>
      intro seen x h
      by_cases hp : p ∈ seen
      · simp only [dedupFirst, if_pos hp] at h
        exact List.mem_cons_of_mem p (ih seen x h)
      · simp only [dedupFirst, if_neg hp] at h
        rcases List.mem_cons.mp h with rfl | h'
        · exact List.mem_cons_self x t
        · exact List.mem_cons_of_mem p (ih (p :: seen) x h')

theorem fullUrl_injective : Function.Injective fullUrl := by
  intro a b hab
  have h := congrArg String.data hab
  simp only [fullUrl, String.data_append] at h
  exact String.ext (List.append_cancel_left h)

theorem mem_normCandidates {p : String} {cands : List (Option String)} :
    p ∈ normCandidates cands ↔
      ∃ h, some h ∈ cands ∧ validArtistHref h = true ∧ p = normalizedPath h := by
  rw [normCandidates, List.mem_filterMap]
  constructor
  · rintro ⟨h?, hmem, hf⟩
    match h? with
    | none => simp at hf
    | some h =>
        by_cases hv : validArtistHref h
        · refine ⟨h, hmem, hv, ?_⟩
          simp only [if_pos hv] at hf
          exact (Option.some.injEq _ _ ▸ hf).symm
        · simp only [if_neg hv] at hf
          exact absurd hf (by simp)
  · rintro ⟨h, hmem, hv, rfl⟩
    exact ⟨some h, hmem, by simp [hv]⟩

theorem albumScan_le (k : Nat) :
    ∀ (cands : List (Option String)) (seen acc : List String), acc.length < k →
      (albumScan k cands seen acc).length ≤ k := by
  intro cands
  induction cands with
  | nil =>
      intro seen acc h
      simp only [albumScan]
      omega
  | cons h? t ih =>
      intro seen acc hacc
      match h? with
      | none => exact ih seen acc hacc
      | some h =>
        by_cases hv : validAlbumHref h
        · by_cases hm : albumNorm h ∈ seen
          · simp only [albumScan, if_pos hv, if_pos hm]
            exact ih seen acc hacc
          · by_cases hk : k ≤ (acc ++ [albumNorm h]).length
            · simp only [albumScan, if_pos hv, if_neg hm]
              rw [if_pos hk]
              simp only [List.length_append, List.length_singleton]
              omega
            · simp only [albumScan, if_pos hv, if_neg hm, if_neg hk]
              refine ih _ _ ?_
              simp only [List.length_append, List.length_singleton] at hk ⊢
              omega
        · simp only [albumScan, if_neg hv]
          exact ih seen acc hacc

theorem albumScan_mem (k : Nat) :
    ∀ (cands : List (Option String)) (seen acc : List String) (u : String),
      u ∈ albumScan k cands seen acc →
        u ∈ acc ∨ ∃ h, some h ∈ cands ∧ validAlbumHref h = true ∧ u = albumNorm h := by
  intro cands
  induction cands with
  | nil =>
      intro seen acc u hu
      exact Or.inl hu
  | cons h? t ih =>
      intro seen acc u hu
      match h? with
      | none =>
          rcases ih seen acc u hu with h | ⟨h, hm, hv, he⟩
          · exact Or.inl h
          · exact Or.inr ⟨h, List.mem_cons_of_mem _ hm, hv, he⟩
      | some h =>
        by_cases hv : validAlbumHref h
        · by_cases hm : albumNorm h ∈ seen
          · simp only [albumScan, if_pos hv, if_pos hm] at hu
            rcases ih _ _ u hu with h' | ⟨g, hg, hgv, hge⟩
            · exact Or.inl h'
            · exact Or.inr ⟨g, List.mem_cons_of_mem _ hg, hgv, hge⟩
          · by_cases hk : k ≤ (acc ++ [albumNorm h]).length
            · simp only [albumScan, if_pos hv, if_neg hm, if_pos hk] at hu
              rcases List.mem_append.mp hu with h' | h'
              · exact Or.inl h'
              · exact Or.inr ⟨h, List.mem_cons_self _ _, hv, by simpa using h'⟩
            · simp only [albumScan, if_pos hv, if_neg hm, if_neg hk] at hu
              rcases ih _ _ u hu with h' | ⟨g, hg, hgv, hge⟩
              · rcases List.mem_append.mp h' with h'' | h''
                · exact Or.inl h''
                · exact Or.inr ⟨h, List.mem_cons_self _ _, hv, by simpa using h''⟩
              · exact Or.inr ⟨g, List.mem_cons_of_mem _ hg, hgv, hge⟩
        · simp only [albumScan, if_neg hv] at hu
          rcases ih seen acc u hu with h' | ⟨g, hg, hgv, hge⟩
          · exact Or.inl h'
          · exact Or.inr ⟨g, List.mem_cons_of_mem _ hg, hgv, hge⟩

theorem noQ_albumNorm (h : String) : '?' ∉ (albumNorm h).data :=
  fun hc => noQ_of_mem_beforeQL hc rfl

theorem reMatchDigits_of_stripped {n : String} (h : n.data.getLast? ≠ some '\n') :
    reMatchDigits n = (decide (n ≠ "") && n.data.all Char.isDigit) := by
  unfold reMatchDigits
  rw [if_neg h]
  congr 1
  simp only [decide_eq_decide]
  constructor
  · intro hd he
    exact hd (congrArg String.data he)
  · intro hs hd
    exact hs (String.ext hd)

theorem trackStep_cases (albumNameRaw : Option String) (ts : List Track) (tn : Nat)
    (r : Row) :
    trackStep albumNameRaw (ts, tn) r = (ts, tn) ∨
      ∃ n, rowName r = some n ∧
        trackStep albumNameRaw (ts, tn) r =
          (ts ++ [{ track_number := tn, track_name := n, duration := r.durCell }], tn + 1) := by
  cases hn : rowName r with
  | none =>
      refine Or.inl ?_
      unfold trackStep
      rw [hn]
  | some n =>
      by_cases hd : discardCode albumNameRaw (some n) = true
      · refine Or.inl ?_
        unfold trackStep
        rw [hn]
        exact if_pos hd
      · refine Or.inr ⟨n, rfl, ?_⟩
        unfold trackStep
        rw [hn]
        exact if_neg hd

theorem trackLoop_numbers (albumNameRaw : Option String) :
    ∀ (rows : List Row) (ts : List Track) (tn : Nat),
      ((rows.foldl (trackStep albumNameRaw) (ts, tn)).1.map Track.track_number =
        ts.map Track.track_number ++
          List.range' tn ((rows.foldl (trackStep albumNameRaw) (ts, tn)).2 - tn))
      ∧ tn ≤ (rows.foldl (trackStep albumNameRaw) (ts, tn)).2 := by
  intro rows
  induction rows with
  | nil =>
      intro ts tn
      simp
  | cons r rows ih =>
      intro ts tn
      simp only [List.foldl_cons]
      rcases trackStep_cases albumNameRaw ts tn r with he | ⟨n, hn, he⟩
      · rw [he]
        exact ih ts tn
      · rw [he]
        obtain ⟨ihm, ihle⟩ :=
          ih (ts ++ [{ track_number := tn, track_name := n, duration := r.durCell }]) (tn + 1)
      -- the first projection of (ts, tn) is ts, the second tn
        refine ⟨?_, by omega⟩
        rw [ihm]
        have hFtn : (rows.foldl (trackStep albumNameRaw)
              (ts ++ [{ track_number := tn, track_name := n, duration := r.durCell }],
                tn + 1)).2 - tn =
            ((rows.foldl (trackStep albumNameRaw)
              (ts ++ [{ track_number := tn, track_name := n, duration := r.durCell }],
                tn + 1)).2 - (tn + 1)) + 1 := by
          omega
        rw [hFtn, List.range'_succ, List.map_append]
        simp [List.append_assoc]

/-- C1: the fallback release-year strategy is reached (the Year cell is absent)
and the snapshot contains the 4-digit token `1999`, yet the produced record's
`release_year` is `"19"` — the capture group of `(19|20)\d{2}`, not the
4-digit token the claim (and the spec's `releaseYear: 4-digit`) requires.
`re.findall` with a capture group returns the group, so the coded fallback can
never yield a 4-digit year: the code contradicts the claim at this input. -/
theorem claim_C1_year_fallback_bug :
    (albumRecordOf "id0" c1Page "https://www.discogs.com/release/1").release_year =
      some "19"
    ∧ containsSub "1999".data c1Page.pageHtml.data = true
    ∧ "19" ≠ "1999" := by
  refine ⟨by decide, by decide, by decide⟩

/-- C2 counterexample: with album name `"A"` and a row name `"Abcdefghijk"`
(which contains `"A"` and is exactly 10 characters longer), the claim as
stated says the row is discarded, but the code emits the track: the code's
bound `len(name) < len(album) + 10` keeps names exactly 10 characters longer. -/
theorem claim_C2_counterexample :
    trackStep (some "A") ([], 1)
        { titleSpan := some "Abcdefghijk", cellTexts := [], durCell := none } =
      ([{ track_number := 1, track_name := "Abcdefghijk", duration := none }], 2)
    ∧ containsSub "A".data "Abcdefghijk".data = true
    ∧ "Abcdefghijk".length = "A".length + 10 := by
  refine ⟨by decide, by decide, by decide⟩

/-- C2 (amended): for a row whose extracted texts are stripped (as `safe_text`
guarantees), the loop body discards the row — leaving the track list and the
counter unchanged — exactly when the extracted name is missing, purely
numeric, or contains the (present, non-empty) album name while being fewer
than 10 characters longer than it; otherwise it emits a track numbered with
the current counter and carrying the row's duration (`null` when no duration
cell was recognized).  In particular a row named `"12"` and a row named
exactly like the album are discarded. -/
theorem claim_C2_track_filter (albumNameRaw : Option String) (r : Row)
    (ts : List Track) (tn : Nat) (hstrip : strippedName r = true) :
    (trackStep albumNameRaw (ts, tn) r = (ts, tn) ↔
        discardSpec albumNameRaw (rowName r) = true)
    ∧ (discardSpec albumNameRaw (rowName r) = false →
        ∃ n, rowName r = some n ∧
          trackStep albumNameRaw (ts, tn) r =
            (ts ++ [{ track_number := tn, track_name := n, duration := r.durCell }], tn + 1))
    ∧ (rowName r = some "12" → trackStep albumNameRaw (ts, tn) r = (ts, tn))
    ∧ (∀ a, albumNameRaw = some a → rowName r = some a →
        trackStep albumNameRaw (ts, tn) r = (ts, tn)) := by
  have hcode : discardCode albumNameRaw (rowName r) = discardSpec albumNameRaw (rowName r) := by
    cases hn : rowName r with
    | none => rfl
    | some n =>
        have hstrip' : n.data.getLast? ≠ some '\n' := by
          unfold strippedName at hstrip
          rw [hn] at hstrip
          simpa using hstrip
        show discardCode albumNameRaw (some n) = discardSpec albumNameRaw (some n)
        simp only [discardCode, discardSpec]
        rw [reMatchDigits_of_stripped hstrip']
  have hstepEq : discardCode albumNameRaw (rowName r) = true →
      trackStep albumNameRaw (ts, tn) r = (ts, tn) := by
    intro hd
    unfold trackStep
    cases hn : rowName r with
    | none => rfl
    | some n =>
        rw [hn] at hd
        exact if_pos hd
  have hstepNe : discardCode albumNameRaw (rowName r) = false →
      ∃ n, rowName r = some n ∧
        trackStep albumNameRaw (ts, tn) r =
          (ts ++ [{ track_number := tn, track_name := n, duration := r.durCell }], tn + 1) := by
    intro hd
    cases hn : rowName r with
    | none =>
        rw [hn] at hd
        exact absurd hd (by simp [discardCode])
    | some n =>
        refine ⟨n, rfl, ?_⟩
        rw [hn] at hd
        have hd' : ¬ discardCode albumNameRaw (some n) = true := by simp [hd]
        unfold trackStep
        rw [hn]
        exact if_neg hd'
  refine ⟨?_, ?_, ?_, ?_⟩
  · constructor
    · intro he
      rw [← hcode]
      cases hb : discardCode albumNameRaw (rowName r) with
      | false =>
          obtain ⟨n, hn, hemit⟩ := hstepNe hb
          rw [hemit] at he
          have hsnd := congrArg Prod.snd he
          simp at hsnd
      | true => rfl
    · intro hd
      exact hstepEq (hcode.trans hd)
  · intro hd
    exact hstepNe (hcode.trans hd)
  · intro h12
    apply hstepEq
    rw [h12]
    have h12' : reMatchDigits "12" = true := by decide
    simp [discardCode, h12']
  · intro a ha hn
    apply hstepEq
    rw [hn, ha]
    by_cases hae : a = ""
    · subst hae
      simp [discardCode]
    · have hc : containsSub a.data a.data = true := (containsSub_iff a.data a.data).mpr (List.infix_refl _)
      have hl : decide (a.length < a.length + 10) = true := by
        simp only [decide_eq_true_eq]
        omega
      simp [discardCode, hae, hc, hl]

/-- Witness for C2: a purely-numeric row name `"12"` is discarded; the album's
own name is discarded; a valid distinct name with no duration cell yields a
track with `duration = none`. -/
theorem claim_C2_witness :
    trackStep (some "Album") ([], 1)
        { titleSpan := some "12", cellTexts := [], durCell := none } = ([], 1)
    ∧ trackStep (some "Album") ([], 1)
        { titleSpan := some "Album", cellTexts := [], durCell := none } = ([], 1)
    ∧ ∃ n, rowName { titleSpan := some "Distinct Song", cellTexts := [], durCell := none } =
        some n ∧
        trackStep (some "Album") ([], 1)
          { titleSpan := some "Distinct Song", cellTexts := [], durCell := none } =
          ([{ track_number := 1, track_name := n, duration := none }], 2) :=
  ⟨(claim_C2_track_filter (some "Album")
      { titleSpan := some "12", cellTexts := [], durCell := none } [] 1 (by decide)).2.2.1 rfl,
   (claim_C2_track_filter (some "Album")
      { titleSpan := some "Album", cellTexts := [], durCell := none } [] 1
      (by decide)).2.2.2 "Album" rfl rfl,
   (claim_C2_track_filter (some "Album")
      { titleSpan := some "Distinct Song", cellTexts := [], durCell := none } [] 1
      (by decide)).2.1 (by decide)⟩

/-- C3 counterexample: with `album_limit = 0` and one qualifying link, the album
loop appends the link before checking the cap, so both the collected links and
the album collection have length 1 > 0 — the claim fails for cap `k = 0`. -/
theorem claim_C3_counterexample :
    (artistAlbumLinks c3Page 0).length = 1 ∧ (albumsOf c3Page 0).length = 1 :=
  ⟨rfl, rfl⟩

/-- C3 (amended): Link Discovery returns at most `limit` locators for every
`limit` (including 0); and for every positive album cap `k ≥ 1`, the collected
album links and the resulting album collection each contain at most `k`
entries, however many qualifying links exist. -/
theorem claim_C3_caps (limit : Nat) (sections : List (List (Option String)))
    (k : Nat) (p : ArtistPage) (hk : 1 ≤ k) :
    (get_artists_by_genre limit sections).length ≤ limit
    ∧ (artistAlbumLinks p k).length ≤ k
    ∧ (albumsOf p k).length ≤ k := by
  have hlinks : (artistAlbumLinks p k).length ≤ k := by
    unfold artistAlbumLinks
    cases p.albumHrefs with
    | none => simp
    | some cands =>
        exact albumScan_le k cands [] [] (by simpa using hk)
  refine ⟨?_, hlinks, ?_⟩
  · rw [get_artists_spec]
    calc (((dedupFirst (normCandidates sections.flatten) []).take limit).map fullUrl).length
        = ((dedupFirst (normCandidates sections.flatten) []).take limit).length :=
          List.length_map _ _
      _ ≤ limit := List.length_take_le _ _
  · calc (albumsOf p k).length
        ≤ (artistAlbumLinks p k).length := List.length_filterMap_le _ _
      _ ≤ k := hlinks

/-- Witness for C3 (amended) at cap 1. -/
theorem claim_C3_witness :
    (get_artists_by_genre 3 [[some "https://www.discogs.com/artist/1"]]).length ≤ 3
    ∧ (artistAlbumLinks c3Page 1).length ≤ 1
    ∧ (albumsOf c3Page 1).length ≤ 1 :=
  claim_C3_caps 3 [[some "https://www.discogs.com/artist/1"]] 1 c3Page (by decide)

/-- C4: the discovery output is exactly the first-occurrence deduplication of
the normalized valid candidates, flattened in section order then document
order, truncated at the cap and prefixed with the base host — so each
normalized locator appears at most once, the first-seen form wins, and the
output order is first-occurrence order. -/
theorem claim_C4_dedup_order (limit : Nat) (sections : List (List (Option String))) :
    get_artists_by_genre limit sections =
      ((dedupFirst (normCandidates sections.flatten) []).take limit).map fullUrl
    ∧ (get_artists_by_genre limit sections).Nodup := by
  refine ⟨get_artists_spec limit sections, ?_⟩
  rw [get_artists_spec]
  apply List.Nodup.map fullUrl_injective
  exact List.Sublist.nodup (List.take_sublist _ _) (dedupFirst_nodup _ []).1

/-- C5: locator normalization is query-insensitive (appending a query component
to a query-free locator does not change the result) and idempotent — for both
the artist-path normalization (scraper.py line 82) and the album-link
normalization (line 204). -/
theorem claim_C5_normalize (x q : List Char) (hx : '?' ∉ x) :
    (normalizedPathL (x ++ '?' :: q) = normalizedPathL x
      ∧ beforeQL (x ++ '?' :: q) = beforeQL x)
    ∧ (∀ y : List Char, normalizedPathL (normalizedPathL y) = normalizedPathL y
      ∧ beforeQL (beforeQL y) = beforeQL y) := by
  refine ⟨⟨normalizedPathL_query x q hx, ?_⟩,
    fun y => ⟨normalizedPathL_idem y, beforeQL_idem y⟩⟩
  rw [beforeQL_append_query x q hx, beforeQL_of_noQ hx]

/-- Witness for C5 on a concrete locator and query. -/
theorem claim_C5_witness :
    normalizedPathL ("https://www.discogs.com/artist/1-A".data ++ '?' :: "x=1".data) =
      normalizedPathL "https://www.discogs.com/artist/1-A".data
    ∧ beforeQL ("https://www.discogs.com/artist/1-A".data ++ '?' :: "x=1".data) =
      beforeQL "https://www.discogs.com/artist/1-A".data :=
  (claim_C5_normalize "https://www.discogs.com/artist/1-A".data "x=1".data (by decide)).1

/-- C6: the surviving tracks are numbered 1..N sequentially in scan order — the
track numbers of the loop's output are exactly `[1, …, N]` with `N` the number
of survivors — and the final stability-sort by track number is a no-op. -/
theorem claim_C6_track_numbering (albumNameRaw : Option String) (rows : List Row) :
    (trackLoop albumNameRaw rows).1.map Track.track_number =
      List.range' 1 (trackLoop albumNameRaw rows).1.length
    ∧ sortTracks (trackLoop albumNameRaw rows).1 = (trackLoop albumNameRaw rows).1 := by
  obtain ⟨hmap, hle⟩ := trackLoop_numbers albumNameRaw rows [] 1
  simp only [List.map_nil, List.nil_append] at hmap
  have hlen : (trackLoop albumNameRaw rows).1.length =
      (trackLoop albumNameRaw rows).2 - 1 := by
    have hc := congrArg List.length hmap
    simpa [List.length_map, List.length_range'] using hc
  constructor
  · rw [trackLoop] at hlen ⊢
    rw [hmap, hlen]
  · apply List.mergeSort_of_sorted
    have hp : List.Pairwise (· < ·)
        (List.range' 1 ((rows.foldl (trackStep albumNameRaw) ([], 1)).2 - 1)) :=
      List.pairwise_lt_range' _ _
    rw [← hmap] at hp
    have hp2 := List.pairwise_map.mp hp
    refine List.Pairwise.imp ?_ hp2
    intro a b hab
    simp only [decide_eq_true_eq]
    exact Nat.le_of_lt hab

/-- C7: `get_artist_data` reports failure (returns `None`) exactly when
navigation fails or the primary heading never appears within the timeout;
otherwise a composed record is returned, every per-field failure having been
recovered locally into the record's (possibly null/empty) fields. -/
theorem claim_C7_artist_error_handling (uid : String) (p : ArtistPage)
    (genre artistUrl : String) (albumLimit : Nat) :
    (get_artist_data uid p genre artistUrl albumLimit = none ↔
      (p.navOk = false ∨ p.h1Present = false))
    ∧ (p.navOk = true → p.h1Present = true →
        get_artist_data uid p genre artistUrl albumLimit =
          some (artistRecordOf uid p genre artistUrl albumLimit)) := by
  cases hnav : p.navOk with
  | false => simp [get_artist_data, hnav]
  | true =>
      cases hh1 : p.h1Present with
      | false => simp [get_artist_data, hnav, hh1]
      | true => simp [get_artist_data, hnav, hh1]

/-- Witness for C7: with navigation and heading both fine but every field
extraction failing, a record is still returned. -/
theorem claim_C7_witness :
    get_artist_data "u" c7Page "Rock" "https://www.discogs.com/artist/1" 2 =
      some (artistRecordOf "u" c7Page "Rock" "https://www.discogs.com/artist/1" 2) :=
  (claim_C7_artist_error_handling "u" c7Page "Rock"
    "https://www.discogs.com/artist/1" 2).2 rfl rfl

/-- C8: `get_album_data` returns `None` exactly when navigation fails; the
primary-heading wait outcome has no effect on the result (a timeout is
tolerated); and a failed tracklist extraction degrades to an empty track list
inside a still-returned record. -/
theorem claim_C8_album_error_handling (uid : String) (p : AlbumPage) (albumUrl : String) :
    (get_album_data uid p albumUrl = none ↔ p.navOk = false)
    ∧ (∀ b, get_album_data uid { p with h1Present := b } albumUrl =
        get_album_data uid p albumUrl)
    ∧ (p.rows = none → (albumRecordOf uid p albumUrl).tracks = []) := by
  refine ⟨?_, fun b => rfl, ?_⟩
  · cases hnav : p.navOk with
    | false => simp [get_album_data, hnav]
    | true => simp [get_album_data, hnav]
  · intro h
    simp [albumRecordOf, tracksOf, h]

/-- Witness for C8: a raised tracklist extraction yields an empty track list,
not a failed record. -/
theorem claim_C8_witness :
    (albumRecordOf "u" c8Page "https://www.discogs.com/release/1").tracks = [] :=
  (claim_C8_album_error_handling "u" c8Page "https://www.discogs.com/release/1").2.2 rfl

/-- C9: every locator produced by Link Discovery is the base host prefix
concatenated with the normalized path of some valid candidate and contains no
query component; every collected album link likewise contains no `'?'`. -/
theorem claim_C9_no_query (limit : Nat) (sections : List (List (Option String)))
    (u : String) (hu : u ∈ get_artists_by_genre limit sections)
    (k : Nat) (cands : List (Option String)) (l : String)
    (hl : l ∈ albumScan k cands [] []) :
    (∃ h, some h ∈ sections.flatten ∧ validArtistHref h = true ∧
        u = fullUrl (normalizedPath h))
    ∧ '?' ∉ u.data
    ∧ '?' ∉ l.data := by
  rw [get_artists_spec] at hu
  obtain ⟨pnorm, hp1, hpu⟩ := List.mem_map.mp hu
  have hp2 : pnorm ∈ dedupFirst (normCandidates sections.flatten) [] :=
    List.Sublist.mem hp1 (List.take_sublist _ _)
  have hp3 : pnorm ∈ normCandidates sections.flatten :=
    mem_of_mem_dedupFirst _ _ _ hp2
  obtain ⟨h, hmem, hv, hpn⟩ := mem_normCandidates.mp hp3
  subst hpn
  subst hpu
  refine ⟨⟨h, hmem, hv, rfl⟩, ?_, ?_⟩
  · intro hq
    simp only [fullUrl, String.data_append] at hq
    rcases List.mem_append.mp hq with hb | hp
    · exact absurd hb (by decide)
    · exact noQ_normalizedPathL h.data hp
  · rcases albumScan_mem k cands [] [] l hl with hin | ⟨g, _, _, hge⟩
    · simp at hin
    · subst hge
      exact noQ_albumNorm g

/-- Witness for C9 on concrete discovery and album-link runs. -/
theorem claim_C9_witness :
    (∃ h, some h ∈ ([[some "https://www.discogs.com/artist/1-A?x=1"]] :
        List (List (Option String))).flatten ∧ validArtistHref h = true ∧
        "https://www.discogs.com/artist/1-A" = fullUrl (normalizedPath h))
    ∧ '?' ∉ "https://www.discogs.com/artist/1-A".data
    ∧ '?' ∉ "https://www.discogs.com/release/9".data :=
  claim_C9_no_query 5 [[some "https://www.discogs.com/artist/1-A?x=1"]]
    "https://www.discogs.com/artist/1-A" (by decide)
    5 [some "https://www.discogs.com/release/9?q=2"]
    "https://www.discogs.com/release/9" (by decide)

/-- C10: `safe_text` is total over element failures: it returns the element's
text with surrounding whitespace stripped, and the empty string (never `None`,
never a re-raise) on each of the three handled exception classes. -/
theorem claim_C10_safe_text :
    (∀ raw : String, safe_text (TextOutcome.ok raw) = ⟨pyStripL raw.data⟩)
    ∧ safe_text TextOutcome.noSuchElement = ""
    ∧ safe_text TextOutcome.staleElement = ""
    ∧ safe_text TextOutcome.attributeError = "" :=
  ⟨fun _ => rfl, rfl, rfl, rfl⟩
